import Mathlib

/-!
Verification of `src/stock_market_simulator.py`.

The Python module defines two classes, `Stock` and `StockMarket`.  We embed
them shallowly:

* Python numbers (prices, dividends) are modelled as exact rationals `ℚ`;
  trade quantities as integers `ℤ` (Python `int`).
* Instants (`datetime`) are modelled as rationals counting seconds, so that
  `datetime.now() - trade['timestamp'] <= timedelta(minutes=15)` becomes
  `now - t.timestamp ≤ 900`.  The ambient clock `datetime.now()` is passed
  explicitly as a `now : ℚ` argument.
* A Python method that can raise returns `Except PyErr _`; the only
  exceptions this module can raise are `ZeroDivisionError` (every division
  site) and `TypeError` (`None * number` when a `Preferred` stock was built
  with `fixed_dividend = None`).
* `Stock.dividend_yield` falls off the end of the `if/elif` chain for an
  unrecognized `stock_type` and returns Python `None`; its result type is
  therefore `Except PyErr (Option ℚ)`, with `.ok none` standing for that
  silent `None`.
* Mutation of `self.trades` becomes a function returning the updated
  `Stock`.
-/

/-- Exceptions the Python module can raise. -/
inductive PyErr where
  | zeroDivisionError
  | typeError
deriving DecidableEq, Repr

/-- One entry of `self.trades`: the dict
`{'timestamp': datetime.now(), 'quantity': q, 'action': a, 'price': p}`
appended by `Stock.record_trade`. -/
structure Trade where
  timestamp : ℚ
  quantity : ℤ
  action : String
  price : ℚ
deriving DecidableEq, Repr

/-- The `Stock` class: the five constructor fields plus the `trades` list
(initialized to `[]` by `__init__`). -/
structure Stock where
  symbol : String
  stock_type : String
  last_dividend : ℚ
  fixed_dividend : Option ℚ
  par_value : ℚ
  trades : List Trade
deriving DecidableEq, Repr

namespace Stock

/-- `Stock.dividend_yield(self, price)`:
`if self.stock_type == 'Common': return self.last_dividend / price`
`elif self.stock_type == 'Preferred': return (self.fixed_dividend * self.par_value) / price`.
Python division by zero raises `ZeroDivisionError`; `None * self.par_value`
raises `TypeError`; an unrecognized `stock_type` falls through and returns
`None`. -/
def dividend_yield (s : Stock) (price : ℚ) : Except PyErr (Option ℚ) :=
  if s.stock_type = "Common" then
    if price = 0 then .error .zeroDivisionError
    else .ok (some (s.last_dividend / price))
  else if s.stock_type = "Preferred" then
    match s.fixed_dividend with
    | none => .error .typeError
    | some f =>
      if price = 0 then .error .zeroDivisionError
      else .ok (some ((f * s.par_value) / price))
  else .ok none

/-- `Stock.pe_ratio(self, price)`: `return price / self.last_dividend`,
raising `ZeroDivisionError` when `self.last_dividend == 0`. -/
def pe_ratio (s : Stock) (price : ℚ) : Except PyErr ℚ :=
  if s.last_dividend = 0 then .error .zeroDivisionError
  else .ok (price / s.last_dividend)

/-- `Stock.record_trade(self, quantity, action, price)`: unconditionally
appends `{'timestamp': datetime.now(), ...}` to `self.trades`.  The ambient
clock is the explicit argument `now`. -/
def record_trade (s : Stock) (now : ℚ) (quantity : ℤ) (action : String)
    (price : ℚ) : Stock :=
  { s with trades := s.trades ++ [⟨now, quantity, action, price⟩] }

/-- The filter in `Stock.volume_weighted_stock_price`:
`now - trade['timestamp'] <= timedelta(minutes=15)` (15 minutes = 900 s). -/
def inWindow (now : ℚ) (t : Trade) : Bool :=
  now - t.timestamp ≤ 900

/-- `Stock.volume_weighted_stock_price(self)`:
filters `self.trades` to the past 15 minutes, then returns
`sum(quantity*price) / sum(quantity)`; the division raises
`ZeroDivisionError` when the quantity sum is zero (in particular whenever
the filtered list is empty). -/
def volume_weighted_stock_price (s : Stock) (now : ℚ) : Except PyErr ℚ :=
  let past_15_minutes_trades := s.trades.filter (inWindow now)
  let trade_sum : ℚ := (past_15_minutes_trades.map
    (fun t => (t.quantity : ℚ) * t.price)).sum
  let quantity_sum : ℤ :=
    (past_15_minutes_trades.map (fun t => t.quantity)).sum
  if quantity_sum = 0 then .error .zeroDivisionError
  else .ok (trade_sum / (quantity_sum : ℚ))

end Stock

/-- The `StockMarket` class: `self.stocks` is a Python dict from symbol to
stock, modelled as an insertion-ordered association list with unique keys. -/
structure StockMarket where
  stocks : List (String × Stock)
deriving Repr

namespace StockMarket

/-- One step of building a Python dict: assigning `d[k] = v` replaces the
value in place when `k` is already a key, and appends otherwise. -/
def dictInsert (d : List (String × Stock)) (k : String) (v : Stock) :
    List (String × Stock) :=
  if d.any (fun p => p.1 = k) then
    d.map (fun p => if p.1 = k then (k, v) else p)
  else d ++ [(k, v)]

/-- Dict lookup `d[k]` (as an `Option`). -/
def dictGet (d : List (String × Stock)) (k : String) : Option Stock :=
  (d.find? (fun p => p.1 = k)).map (fun p => p.2)

/-- `StockMarket.__init__(self, stocks)`:
`self.stocks = {stock.symbol: stock for stock in stocks}` — the dict
comprehension iterates left to right, later assignments to the same key
replacing earlier ones. -/
def ofStocks (stocks : List Stock) : StockMarket :=
  ⟨stocks.foldl (fun d s => dictInsert d s.symbol s) []⟩

/-- The price list built by `gbce_all_share_index`: every trade's `price`
across every stock of the registry, in iteration order. -/
def allPrices (m : StockMarket) : List ℚ :=
  m.stocks.foldl (fun acc p => acc ++ p.2.trades.map (fun t => t.price)) []

/-- `StockMarket.gbce_all_share_index(self)`:
`return (prod(prices)) ** (1.0 / len(prices))`; `1.0 / 0` raises
`ZeroDivisionError` when there are no trades at all. -/
noncomputable def gbce_all_share_index (m : StockMarket) : Except PyErr ℝ :=
  let prices := m.allPrices
  if prices.length = 0 then .error .zeroDivisionError
  else .ok (((prices.map (fun q => (q : ℝ))).prod) ^ ((1 : ℝ) / prices.length))

end StockMarket

/-! ## Claims -/

/-- C1: for every stock with a recognized category and every price > 0,
`dividend_yield price` returns `last_dividend / price` when the category is
`Common`, and `(fixed_dividend * par_value) / price` when it is `Preferred`
(with the fixed dividend rate present, as the data-model invariant
requires). -/
theorem dividend_yield_formula (s : Stock) (price : ℚ) (hp : 0 < price) :
    (s.stock_type = "Common" →
      s.dividend_yield price = .ok (some (s.last_dividend / price))) ∧
    (s.stock_type = "Preferred" → ∀ f, s.fixed_dividend = some f →
      s.dividend_yield price = .ok (some ((f * s.par_value) / price))) := by
  constructor
  · intro hc
    simp [Stock.dividend_yield, hc, hp.ne']
  · intro hpref f hf
    simp [Stock.dividend_yield, hpref, hf, hp.ne']

/-- Witness for C1: the demo stock `GIN` (`Preferred`, fixed dividend 0.02,
par value 100) at price 140. -/
theorem dividend_yield_formula_witness :
    (Stock.mk "GIN" "Preferred" 8 (some (1/50)) 100 []).dividend_yield 140 =
      .ok (some (((1/50 : ℚ) * 100) / 140)) :=
  (dividend_yield_formula (Stock.mk "GIN" "Preferred" 8 (some (1/50)) 100 [])
    140 (by norm_num)).2 rfl (1/50) rfl

/-- Demo stock `TEA` from the module's example usage:
`Stock('TEA', 'Common', 0, None, 100)`. -/
def teaStock : Stock := ⟨"TEA", "Common", 0, none, 100, []⟩

/-- Demo stock `POP`: `Stock('POP', 'Common', 8, None, 100)`. -/
def popStock : Stock := ⟨"POP", "Common", 8, none, 100, []⟩

/-- Demo stock `ALE`: `Stock('ALE', 'Common', 23, None, 60)`. -/
def aleStock : Stock := ⟨"ALE", "Common", 23, none, 60, []⟩

/-- Demo stock `ALE` after `ale.record_trade(150, 'buy', 130)` at instant 0. -/
def aleTraded : Stock := aleStock.record_trade 0 150 "buy" 130

/-- C2: `volume_weighted_stock_price` at instant `now` equals
`Σ(quantity·price) / Σ(quantity)` over exactly the trades whose age
`now - timestamp` is at most the 15-minute (900 s) window the code fixes,
the boundary being inclusive; a trade strictly older than the window never
influences the result. -/
theorem vwsp_formula (s : Stock) (now : ℚ)
    (h : ((s.trades.filter (Stock.inWindow now)).map
      (fun t => t.quantity)).sum ≠ 0) :
    (∀ t : Trade, Stock.inWindow now t = true ↔ now - t.timestamp ≤ 900) ∧
    s.volume_weighted_stock_price now =
      .ok (((s.trades.filter (Stock.inWindow now)).map
          (fun t => (t.quantity : ℚ) * t.price)).sum /
        ((((s.trades.filter (Stock.inWindow now)).map
          (fun t => t.quantity)).sum : ℤ) : ℚ)) ∧
    (∀ t : Trade, 900 < now - t.timestamp →
      Stock.volume_weighted_stock_price { s with trades := s.trades ++ [t] }
          now = s.volume_weighted_stock_price now) := by
  refine ⟨?_, ?_, ?_⟩
  · intro t
    simp [Stock.inWindow]
  · simp only [Stock.volume_weighted_stock_price]
    rw [if_neg h]
  · intro t ht
    have hf : Stock.inWindow now t = false := by
      simp [Stock.inWindow]
      linarith
    simp [Stock.volume_weighted_stock_price, List.filter_append, hf]

/-- Witness for C2: `ALE` with its single demo trade (quantity 150 at price
130, recorded at instant 0) has VWAP exactly 130 at instant 0. -/
theorem vwsp_formula_witness :
    aleTraded.volume_weighted_stock_price 0 = .ok 130 := by
  have h : ((aleTraded.trades.filter (Stock.inWindow 0)).map
      (fun t => t.quantity)).sum ≠ 0 := by
    norm_num [aleTraded, aleStock, Stock.record_trade, Stock.inWindow]
  rw [(vwsp_formula aleTraded 0 h).2.1]
  norm_num [aleTraded, aleStock, Stock.record_trade, Stock.inWindow]

/-- C3: over a nonempty multiset of trades across the exchange,
`gbce_all_share_index` returns the geometric mean — the product of every
trade price raised to the power `1/n` — and over a single trade of price
`P` it returns exactly `P`. -/
theorem gbce_geometric_mean (m : StockMarket) (hn : m.allPrices ≠ []) :
    m.gbce_all_share_index =
      .ok (((m.allPrices.map (fun q => (q : ℝ))).prod) ^
        ((1 : ℝ) / m.allPrices.length)) ∧
    (∀ P : ℚ, m.allPrices = [P] → m.gbce_all_share_index = .ok (P : ℝ)) := by
  constructor
  · simp only [StockMarket.gbce_all_share_index]
    rw [if_neg (fun hz => hn (List.length_eq_zero.mp hz))]
  · intro P hP
    simp [StockMarket.gbce_all_share_index, hP]

/-- Witness for C3: a one-stock exchange holding the single `ALE` demo
trade at price 130 has index exactly 130. -/
theorem gbce_geometric_mean_witness :
    (StockMarket.ofStocks [aleTraded]).gbce_all_share_index =
      .ok ((130 : ℚ) : ℝ) :=
  (gbce_geometric_mean (StockMarket.ofStocks [aleTraded])
    (by decide)).2 130 (by decide)

/-- C4: `pe_ratio price` fails (the division raises) exactly when
`last_dividend = 0`; otherwise it returns the exact rational
`price / last_dividend`, and in particular a stock with `last_dividend = 8`
has `pe_ratio 120 = 15`. -/
theorem pe_ratio_spec (s : Stock) (price : ℚ) :
    (s.pe_ratio price = .error .zeroDivisionError ↔ s.last_dividend = 0) ∧
    (s.last_dividend ≠ 0 → s.pe_ratio price = .ok (price / s.last_dividend)) ∧
    (s.last_dividend = 8 → s.pe_ratio 120 = .ok 15) := by
  refine ⟨?_, ?_, ?_⟩
  · by_cases h : s.last_dividend = 0 <;> simp [Stock.pe_ratio, h]
  · intro h
    simp [Stock.pe_ratio, h]
  · intro h
    norm_num [Stock.pe_ratio, h]

/-- Witness for C4: the demo stock `POP` (`last_dividend = 8`) has
`pe_ratio 120 = 15`. -/
theorem pe_ratio_spec_witness : popStock.pe_ratio 120 = .ok 15 :=
  (pe_ratio_spec popStock 120).2.2 rfl

/-- Counterexample for C5: `record_trade` performs no validation.  Recording
`quantity = 0, price = -5` on `TEA` (after one valid trade) does not fail:
the invalid trade is appended to the trade sequence, and its price then
appears in the price list collected by `gbce_all_share_index`. -/
theorem record_trade_validation_cex :
    ((teaStock.record_trade 0 100 "buy" 110).record_trade 0 0 "buy"
        (-5)).trades =
      [⟨0, 100, "buy", 110⟩, ⟨0, 0, "buy", -5⟩] ∧
    (StockMarket.ofStocks
        [(teaStock.record_trade 0 100 "buy" 110).record_trade 0 0 "buy"
          (-5)]).allPrices = [110, -5] := by
  constructor <;> rfl

/-- C5 as amended: `record_trade` rejects nothing.  Even when
`quantity ≤ 0`, `price ≤ 0`, or the action is neither `buy` nor `sell`,
the trade is appended to the trade sequence and its price appears in the
exchange-wide price collection used by the all-share index. -/
theorem record_trade_no_validation (s : Stock) (now : ℚ) (q : ℤ)
    (a : String) (p : ℚ)
    (_h : q ≤ 0 ∨ p ≤ 0 ∨ (a ≠ "buy" ∧ a ≠ "sell")) :
    (s.record_trade now q a p).trades = s.trades ++ [⟨now, q, a, p⟩] ∧
    (StockMarket.ofStocks [s.record_trade now q a p]).allPrices =
      s.trades.map (fun t => t.price) ++ [p] := by
  constructor
  · rfl
  · simp [StockMarket.ofStocks, StockMarket.dictInsert, StockMarket.allPrices,
      Stock.record_trade]

/-- Witness for the amended C5: the spec's own example inputs
`quantity = 0, price = -5`. -/
theorem record_trade_no_validation_witness :
    (teaStock.record_trade 0 0 "buy" (-5)).trades =
      teaStock.trades ++ [⟨0, 0, "buy", -5⟩] :=
  (record_trade_no_validation teaStock 0 0 "buy" (-5) (Or.inl le_rfl)).1

/-- Counterexample for C6: `dividend_yield` does not reject a negative
price (it returns a negative yield for `POP` at price −10), and an
unrecognized category does not fail — it silently returns Python `None`. -/
theorem dividend_yield_validation_cex :
    popStock.dividend_yield (-10) = .ok (some ((8 : ℚ) / (-10))) ∧
    (Stock.mk "XXX" "Mystery" 8 none 100 []).dividend_yield 100 =
      .ok none := by
  constructor <;> rfl

/-- C6 as amended: `dividend_yield` fails only at `price = 0` (the Python
division raises `ZeroDivisionError`, for both recognized categories); a
negative price is accepted and produces the formula value; a stock whose
category is neither `Common` nor `Preferred` silently yields `None`
instead of failing. -/
theorem dividend_yield_validation_amended (s : Stock) (price : ℚ) :
    (s.stock_type = "Common" → price = 0 →
      s.dividend_yield price = .error .zeroDivisionError) ∧
    (s.stock_type = "Preferred" → ∀ f, s.fixed_dividend = some f →
      price = 0 → s.dividend_yield price = .error .zeroDivisionError) ∧
    (s.stock_type = "Common" → price ≠ 0 →
      s.dividend_yield price = .ok (some (s.last_dividend / price))) ∧
    (s.stock_type = "Preferred" → ∀ f, s.fixed_dividend = some f →
      price ≠ 0 →
      s.dividend_yield price = .ok (some ((f * s.par_value) / price))) ∧
    (s.stock_type ≠ "Common" → s.stock_type ≠ "Preferred" →
      s.dividend_yield price = .ok none) := by
  refine ⟨?_, ?_, ?_, ?_, ?_⟩
  · intro hc h0
    simp [Stock.dividend_yield, hc, h0]
  · intro hpref f hf h0
    simp [Stock.dividend_yield, hpref, hf, h0]
  · intro hc h0
    simp [Stock.dividend_yield, hc, h0]
  · intro hpref f hf h0
    simp [Stock.dividend_yield, hpref, hf, h0]
  · intro hc hpref
    simp [Stock.dividend_yield, hc, hpref]

/-- Witness for the amended C6: `POP` at price 0 raises
`ZeroDivisionError`. -/
theorem dividend_yield_validation_amended_witness :
    popStock.dividend_yield 0 = .error .zeroDivisionError :=
  (dividend_yield_validation_amended popStock 0).1 rfl rfl

/-- C7: when no trade falls inside the 15-minute window, the filtered list
is empty, both sums are zero, and `volume_weighted_stock_price` fails (the
`0 / 0` division raises). -/
theorem vwsp_empty_window_error (s : Stock) (now : ℚ)
    (h : s.trades.filter (Stock.inWindow now) = []) :
    s.volume_weighted_stock_price now = .error .zeroDivisionError := by
  simp [Stock.volume_weighted_stock_price, h]

/-- Witness for C7: `TEA` with a single trade recorded at instant 0,
queried at instant 1000 (the trade is 100 s past the window edge). -/
theorem vwsp_empty_window_error_witness :
    (teaStock.record_trade 0 100 "buy" 110).volume_weighted_stock_price
      1000 = .error .zeroDivisionError := by
  refine vwsp_empty_window_error _ 1000 ?_
  norm_num [teaStock, Stock.record_trade, Stock.inWindow]

/-- C8: when the total trade count across every stock of the exchange is
zero, the collected price list is empty and `gbce_all_share_index` fails
(`1.0 / 0` raises). -/
theorem gbce_no_trades_error (m : StockMarket) (h : m.allPrices = []) :
    m.gbce_all_share_index = .error .zeroDivisionError := by
  simp [StockMarket.gbce_all_share_index, h]

/-- Witness for C8: an exchange of two stocks with no trades at all. -/
theorem gbce_no_trades_error_witness :
    (StockMarket.ofStocks [teaStock, popStock]).gbce_all_share_index =
      .error .zeroDivisionError :=
  gbce_no_trades_error _ rfl

/-- C9: for every valid input, `record_trade` appends exactly one trade,
stamped with the current instant, at the end of the sequence; every
previously recorded trade keeps its value and position, and the five other
stock fields are unchanged. -/
theorem record_trade_frame (s : Stock) (now : ℚ) (q : ℤ) (a : String)
    (p : ℚ) (_hq : 0 < q) (_hp : 0 < p) (_ha : a = "buy" ∨ a = "sell") :
    (s.record_trade now q a p).trades = s.trades ++ [⟨now, q, a, p⟩] ∧
    (s.record_trade now q a p).trades.length = s.trades.length + 1 ∧
    (s.record_trade now q a p).trades.take s.trades.length = s.trades ∧
    (s.record_trade now q a p).symbol = s.symbol ∧
    (s.record_trade now q a p).stock_type = s.stock_type ∧
    (s.record_trade now q a p).last_dividend = s.last_dividend ∧
    (s.record_trade now q a p).fixed_dividend = s.fixed_dividend ∧
    (s.record_trade now q a p).par_value = s.par_value := by
  refine ⟨rfl, by simp [Stock.record_trade], ?_, rfl, rfl, rfl, rfl, rfl⟩
  simp [Stock.record_trade]

/-- Witness for C9: the demo trade `tea.record_trade(100, 'buy', 110)`. -/
theorem record_trade_frame_witness :
    (teaStock.record_trade 0 100 "buy" 110).trades =
      teaStock.trades ++ [⟨0, 100, "buy", 110⟩] :=
  (record_trade_frame teaStock 0 100 "buy" 110 (by norm_num) (by norm_num)
    (Or.inl rfl)).1

namespace StockMarket

/-- Unfolding lemma: dict lookup on a cons cell. -/
theorem dictGet_cons (p : String × Stock) (d : List (String × Stock))
    (k : String) :
    dictGet (p :: d) k = if p.1 = k then some p.2 else dictGet d k := by
  by_cases h : p.1 = k <;> simp [dictGet, h]

/-- Replacing every entry keyed `k` by `(k, v)` updates the lookup at `k`
(when a binding exists) and leaves every other lookup unchanged. -/
theorem dictGet_map_replace (d : List (String × Stock)) (k k' : String)
    (v : Stock) :
    dictGet (d.map (fun p => if p.1 = k then (k, v) else p)) k' =
      if k' = k then (dictGet d k).map (fun _ => v) else dictGet d k' := by
  induction d with
  | nil => by_cases hk : k' = k <;> simp [dictGet, hk]
  | cons p rest ih =>
    simp only [List.map_cons]
    by_cases hpk : p.1 = k
    · by_cases hk : k' = k
      · subst hk
        simp [dictGet_cons, hpk]
      · have hk2 : ¬k = k' := fun h => hk h.symm
        simp [dictGet_cons, hpk, hk, hk2, ih]
    · by_cases hk : k' = k
      · subst hk
        simp [dictGet_cons, hpk, ih]
      · by_cases hpk' : p.1 = k'
        · simp [dictGet_cons, hpk, hpk', hk]
        · simp [dictGet_cons, hpk, hpk', hk, ih]

/-- Python dict assignment `d[k] = v`: the lookup at `k` becomes `v`, and
every other lookup is unchanged. -/
theorem dictGet_dictInsert (d : List (String × Stock)) (k k' : String)
    (v : Stock) :
    dictGet (dictInsert d k v) k' =
      if k' = k then some v else dictGet d k' := by
  unfold dictInsert
  by_cases hmem : d.any (fun p => p.1 = k)
  · rw [if_pos hmem, dictGet_map_replace]
    by_cases hk : k' = k
    · rw [if_pos hk, if_pos hk]
      have hsome : (d.find? (fun p => p.1 = k)).isSome := by
        rw [List.find?_isSome]
        obtain ⟨p, hp, hpk⟩ := List.any_eq_true.mp hmem
        exact ⟨p, hp, hpk⟩
      obtain ⟨x, hx⟩ := Option.isSome_iff_exists.mp hsome
      simp [dictGet, hx]
    · rw [if_neg hk, if_neg hk]
  · rw [if_neg hmem]
    have hnone : d.find? (fun p => p.1 = k) = none := by
      rw [List.find?_eq_none]
      intro x hx hxk
      exact hmem (List.any_eq_true.mpr ⟨x, hx, hxk⟩)
    by_cases hk : k' = k
    · subst hk
      simp [dictGet, List.find?_append, hnone]
    · simp only [dictGet, List.find?_append]
      rw [if_neg hk]
      have hkk : ¬k = k' := fun h => hk h.symm
      have hfind : ([((k, v) : String × Stock)].find? (fun p => p.1 = k')) =
          none := by
        simp [List.find?, hkk]
      rw [hfind, Option.or_none]

/-- `dictInsert` preserves distinctness of the keys. -/
theorem dictInsert_keys_nodup (d : List (String × Stock)) (k : String)
    (v : Stock) (h : (d.map (fun p => p.1)).Nodup) :
    ((dictInsert d k v).map (fun p => p.1)).Nodup := by
  unfold dictInsert
  by_cases hmem : d.any (fun p => p.1 = k)
  · rw [if_pos hmem]
    have hkeys : (d.map (fun p => if p.1 = k then (k, v) else p)).map
        (fun p => p.1) = d.map (fun p => p.1) := by
      rw [List.map_map]
      refine List.map_congr_left ?_
      intro p _
      by_cases hpk : p.1 = k <;> simp [hpk]
    rw [hkeys]
    exact h
  · rw [if_neg hmem, List.map_append, List.nodup_append]
    refine ⟨h, List.nodup_singleton k, ?_⟩
    intro x hx hxk
    simp only [List.map_cons, List.map_nil, List.mem_singleton] at hxk
    obtain ⟨p, hp, hpfst⟩ := List.mem_map.mp hx
    exact hmem (List.any_eq_true.mpr ⟨p, hp, by simp [hpfst, hxk]⟩)

end StockMarket

/-- C10: `StockMarket.__init__` builds a registry whose symbols are
pairwise distinct (each symbol maps to exactly one stock), and construction
never fails: looking up any symbol returns the *last* stock with that
symbol in the input list — a later duplicate silently replaces an earlier
one. -/
theorem stockMarket_init_last_wins (stocks : List Stock) :
    ((StockMarket.ofStocks stocks).stocks.map (fun p => p.1)).Nodup ∧
    (∀ k, StockMarket.dictGet (StockMarket.ofStocks stocks).stocks k =
      (stocks.filter (fun s => s.symbol = k)).getLast?) := by
  induction stocks using List.reverseRecOn with
  | nil => simp [StockMarket.ofStocks, StockMarket.dictGet]
  | append_singleton l s ih =>
    have hfold : (StockMarket.ofStocks (l ++ [s])).stocks =
        StockMarket.dictInsert (StockMarket.ofStocks l).stocks s.symbol s := by
      simp [StockMarket.ofStocks, List.foldl_append]
    constructor
    · rw [hfold]
      exact StockMarket.dictInsert_keys_nodup _ _ _ ih.1
    · intro k
      rw [hfold, StockMarket.dictGet_dictInsert, List.filter_append]
      by_cases hk : k = s.symbol
      · rw [if_pos hk]
        have : List.filter (fun s' => decide (s'.symbol = k)) [s] = [s] := by
          simp [hk]
        rw [this, List.getLast?_append]
        rfl
      · rw [if_neg hk]
        have : List.filter (fun s' => decide (s'.symbol = k)) [s] = [] := by
          simp
          exact fun h => hk h.symm
        rw [this, List.append_nil]
        exact ih.2 k
